import Mathlib

/-!
Verification of the Gitto version-control engine (src/gitto.py).

Modelling conventions, fixed once for the whole development:

* The process working directory is the repository root, so every
  `os.path.relpath(os.path.join(self.directory, p))` and
  `os.path.relpath(p, self.directory)` in the source is the identity on the
  repository-relative path `p`; path normalisation is therefore dropped.
* The persisted repository state (`.gitto/objects`, `.gitto/index`,
  `.gitto/HEAD`) and the working tree are gathered in one `State` record.
  The object directory maps a digest to an `Entry`: either a raw text blob
  or a commit record.  In the source a commit is stored as its JSON
  serialisation and re-parsed with `json.loads`; here the store keeps the
  parsed `Commit` and `serializeCommit` renders the JSON text, so
  serialisation followed by parsing is the identity, which is exactly the
  JSON round-trip of the source.
* `hashlib.sha1(...).hexdigest()` is a pure deterministic function of the
  content; it enters the model as an explicit parameter
  `hash : String → String`.  Likewise `difflib.unified_diff` enters the
  diff renderer as a parameter `udiff`.  No claim depends on their
  internals.
* `datetime.now().isoformat()` is ambient input; `commit` receives the
  timestamp string as an argument.
* `print` output is modelled as a returned list of messages / events;
  terminal colour codes are glue and are not modelled.  An uncaught Python
  exception is modelled as `Except.error`, since no caller in the source
  installs a handler.
* Python string quoting in messages uses `"\x27"` for the ASCII apostrophe.
-/

namespace Gitto

/-- A commit record as produced by `VCS.commit` (gitto.py lines 251-256):
timestamp, message, files mapping (path → digest) and optional parent digest. -/
structure Commit : Type where
  timestamp : String
  message : String
  files : List (String × String)
  parent : Option String
deriving DecidableEq, Repr

/-- An entry of the object directory: either a raw text blob written by
`VCS.add_file`, or a serialized commit record written by `VCS.commit`. -/
inductive Entry : Type
  | blob (content : String)
  | commit (c : Commit)
deriving DecidableEq, Repr

/-- The persisted repository state plus the working tree.
`objects` is the object directory (digest → entry), `index` the staging
area (path → digest), `head` the content of `.gitto/HEAD` (`none` for the
empty file), `fs` the working tree (path → current content). -/
structure State : Type where
  objects : List (String × Entry)
  index : List (String × String)
  head : Option String
  fs : List (String × String)
deriving DecidableEq, Repr

/-- Association-list lookup, the model of Python `dict` access and of
`os.path.exists` checks on digest-named files. -/
def lookup {α : Type} : List (String × α) → String → Option α
  | [], _ => none
  | p :: rest, k => if p.1 = k then some p.2 else lookup rest k

/-- Association-list update, the model of Python `dict` assignment and of
writing a file under a fixed name (overwriting if present). -/
def setk {α : Type} : List (String × α) → String → α → List (String × α)
  | [], k, v => [(k, v)]
  | p :: rest, k, v => if p.1 = k then (k, v) :: rest else p :: setk rest k v

/-- Association-list deletion, the model of Python `del dict[k]`. -/
def removek {α : Type} : List (String × α) → String → List (String × α)
  | [], _ => []
  | p :: rest, k => if p.1 = k then removek rest k else p :: removek rest k

theorem lookup_setk_self {α : Type} (m : List (String × α)) (k : String) (v : α) :
    lookup (setk m k v) k = some v := by
  induction m with
  | nil => simp [setk, lookup]
  | cons p rest ih =>
    by_cases h : p.1 = k
    · simp [setk, h, lookup]
    · simp [setk, h, lookup, ih]

theorem setk_setk_self {α : Type} (m : List (String × α)) (k : String) (v : α) :
    setk (setk m k v) k v = setk m k v := by
  induction m with
  | nil => simp [setk]
  | cons p rest ih =>
    by_cases h : p.1 = k
    · simp [setk, h]
    · simp [setk, h, ih]

theorem lookup_removek_self {α : Type} (m : List (String × α)) (k : String) :
    lookup (removek m k) k = none := by
  induction m with
  | nil => rfl
  | cons p rest ih =>
    by_cases h : p.1 = k
    · simp [removek, h, ih]
    · simp [removek, lookup, h, ih]

/-- JSON rendering of a string (gitto.py uses `json.dumps`); content is
assumed free of characters needing JSON escapes, which only renames digests. -/
def serializeString (s : String) : String :=
  "\"" ++ s ++ "\""

/-- JSON rendering of the `files` mapping of a commit record. -/
def serializeFiles : List (String × String) → String
  | files =>
    "\x7b" ++
      String.intercalate ", "
        (files.map (fun fd => serializeString fd.1 ++ ": " ++ serializeString fd.2)) ++
      "\x7d"

/-- JSON rendering of a commit record, the model of
`json.dumps(commit_json)` in `VCS.commit` (gitto.py line 257): the digest
of a commit is the hash of this text. -/
def serializeCommit (c : Commit) : String :=
  "\x7b\"timestamp\": " ++ serializeString c.timestamp ++
    ", \"message\": " ++ serializeString c.message ++
    ", \"files\": " ++ serializeFiles c.files ++
    ", \"parent\": " ++
    (match c.parent with
     | none => "null"
     | some p => serializeString p) ++ "\x7d"

/-- The raw file text of an object-directory entry. -/
def entryText : Entry → String
  | .blob s => s
  | .commit c => serializeCommit c

/-- VCS.get_file_content (gitto.py lines 283-286): read the object file
named by the digest; `none` models the `FileNotFoundError` raised by `open`
when the entry is absent. -/
def get_file_content (objects : List (String × Entry)) (h : String) : Option String :=
  (lookup objects h).map entryText

/-- The object-store write performed by `VCS.add_file` (gitto.py lines
69-71): compute the digest of the data and write the data under that digest
(mode "w", overwriting any existing file of the same name). -/
def write_object (hash : String → String) (objects : List (String × Entry))
    (data : String) : List (String × Entry) :=
  setk objects (hash data) (.blob data)

/-- VCS.append_to_staging_area (gitto.py lines 126-131): upsert
path → digest into the persisted index mapping. -/
def append_to_staging_area (index : List (String × String)) (path hash : String) :
    List (String × String) :=
  setk index path hash

/-- VCS.unstage_file (gitto.py lines 83-94): if the path is a key of the
index, delete it and report success (prints "... unstaged"), else leave the
index unchanged and report absence (prints "... is not in the staging
area").  The returned Bool is which of the two messages was printed. -/
def unstage_file (index : List (String × String)) (path : String) :
    List (String × String) × Bool :=
  match lookup index path with
  | some _ => (removek index path, true)
  | none => (index, false)

/-- VCS.update_head (gitto.py lines 239-241): overwrite `.gitto/HEAD` with
the commit digest. -/
def update_head (st : State) (commit_hash : String) : State :=
  { st with head := some commit_hash }

/-- VCS.commit (gitto.py lines 243-264): build the commit record from the
loaded index and current HEAD, hash its serialisation, write it to the
object directory, advance HEAD, clear the index, and print the success
message.  The source's guard `if not f:` tests the (always-truthy) file
handle rather than the loaded index mapping, so the "No changes to commit"
early return is unreachable and the operation proceeds unconditionally;
the dead branch is omitted here. -/
def commit (hash : String → String) (st : State) (timestamp message : String) :
    State × List String :=
  let c : Commit :=
    { timestamp := timestamp, message := message, files := st.index, parent := st.head }
  let commit_hash := hash (serializeCommit c)
  let st1 := { st with objects := setk st.objects commit_hash (.commit c) }
  let st2 := update_head st1 commit_hash
  let st3 := { st2 with index := [] }
  (st3, ["Commit successfully created with commit hash: " ++ commit_hash])

/-- C1: the claim says `commit` on an empty Index fails with
NothingToCommit and leaves HEAD unchanged.  The code does the opposite: the
guard `if not f:` tests the file handle, which is always truthy, so on an
empty index `commit` still creates a commit record with an empty file-set,
writes it to the object store, advances HEAD and prints the success
message.  This theorem evaluates the code at the failing input (empty
index, no prior commit). -/
theorem commit_empty_index_still_commits :
    (commit (fun _ => "d") ⟨[], [], none, []⟩ "2024-01-01T00:00:00" "msg").1.head
        = some "d" ∧
    (⟨[], [], none, []⟩ : State).head = none ∧
    lookup (commit (fun _ => "d") ⟨[], [], none, []⟩ "2024-01-01T00:00:00" "msg").1.objects
        "d" = some (.commit ⟨"2024-01-01T00:00:00", "msg", [], none⟩) ∧
    (commit (fun _ => "d") ⟨[], [], none, []⟩ "2024-01-01T00:00:00" "msg").2
        = ["Commit successfully created with commit hash: d"] :=
  ⟨rfl, rfl, rfl, rfl⟩

/-- C5: after every commit call (all of them succeed, see `commit`), the
persisted index mapping is empty, HEAD equals the digest of the serialized
newly created commit record, and that record is stored in the object
directory under its digest. -/
theorem commit_clears_index_advances_head (hash : String → String) (st : State)
    (timestamp message : String) :
    (commit hash st timestamp message).1.index = [] ∧
    (commit hash st timestamp message).1.head
        = some (hash (serializeCommit
            ⟨timestamp, message, st.index, st.head⟩)) ∧
    lookup (commit hash st timestamp message).1.objects
        (hash (serializeCommit ⟨timestamp, message, st.index, st.head⟩))
      = some (.commit ⟨timestamp, message, st.index, st.head⟩) := by
  refine ⟨rfl, rfl, ?_⟩
  exact lookup_setk_self st.objects _ _

/-- C6: object-store round-trip and idempotence.  Writing content under its
digest and reading back the entry keyed by that digest returns the content
exactly, and writing the same content twice equals writing it once. -/
theorem object_store_roundtrip_idempotent (hash : String → String)
    (objects : List (String × Entry)) (c : String) :
    get_file_content (write_object hash objects c) (hash c) = some c ∧
    write_object hash (write_object hash objects c) c = write_object hash objects c := by
  constructor
  · simp [get_file_content, write_object, lookup_setk_self, entryText]
  · exact setk_setk_self objects (hash c) (.blob c)

/-- C7: staging a path and then unstaging it leaves the path absent from
the persisted index, the unstage reports that the path was present, and in
general `unstage_file` reports exactly whether the path was a key of the
index. -/
theorem stage_then_unstage_removes (index : List (String × String)) (p d : String) :
    lookup (unstage_file (append_to_staging_area index p d) p).1 p = none ∧
    (unstage_file (append_to_staging_area index p d) p).2 = true ∧
    ∀ (idx : List (String × String)) (q : String),
      (unstage_file idx q).2 = (lookup idx q).isSome := by
  have h1 : lookup (append_to_staging_area index p d) p = some d :=
    lookup_setk_self index p d
  refine ⟨?_, ?_, ?_⟩
  · simp only [unstage_file, h1]
    exact lookup_removek_self _ p
  · simp only [unstage_file, h1]
  · intro idx q
    cases h : lookup idx q <;> simp [unstage_file, h]

/-- Split a character list at every `/`, the slash-splitting underlying
`os.path` component handling (structural recursion so the kernel can
evaluate it). -/
def splitOnSlash : List Char → List (List Char)
  | [] => [[]]
  | c :: rest =>
    let r := splitOnSlash rest
    if c = '/' then [] :: r
    else
      match r with
      | [] => [[c]]
      | g :: gs => (c :: g) :: gs

/-- Join path components with `/` again. -/
def joinSlash : List (List Char) → List Char
  | [] => []
  | [g] => g
  | g :: gs => g ++ '/' :: joinSlash gs

/-- The last path component, the model of the bare file name `file`
yielded by `os.walk`. -/
def basename (p : String) : String :=
  String.mk ((splitOnSlash p.data).getLastD p.data)

/-- The directory part of a path, the model of the `root` yielded by
`os.walk` for the file. -/
def dirname (p : String) : String :=
  String.mk (joinSlash ((splitOnSlash p.data).dropLast))

/-- Whether a character list starts with the given pattern. -/
def charsStartWith : List Char → List Char → Bool
  | _, [] => true
  | [], _ :: _ => false
  | a :: as, p :: ps => (a = p) && charsStartWith as ps

/-- Whether a character list contains the given pattern as a contiguous
run. -/
def charsContain : List Char → List Char → Bool
  | [], pat => pat.isEmpty
  | a :: as, pat => charsStartWith (a :: as) pat || charsContain as pat

/-- Python substring containment `pat in s`. -/
def strContains (s pat : String) : Bool :=
  charsContain s.data pat.data

/-- VCS.get_staged_files (gitto.py lines 140-147): the keys of the
persisted index mapping (with the working directory at the repository root
the relpath normalisation is the identity). -/
def get_staged_files (st : State) : List String :=
  st.index.map Prod.fst

/-- The first loop of VCS.get_tracked_files (gitto.py lines 158-165): for
each file of the latest commit's file-set not in `staged`, record it as
tracked, read its current content (a missing file raises
`FileNotFoundError`, modelled as `.error`), and record it as changed when
the current digest differs from the committed digest. -/
def trackedLoop (hash : String → String) (st : State) (staged : List String) :
    List (String × String) → Except String (List String × List String)
  | [] => .ok ([], [])
  | fd :: rest =>
    if fd.1 ∈ staged then trackedLoop hash st staged rest
    else
      match lookup st.fs fd.1 with
      | none => .error ("FileNotFoundError: " ++ fd.1)
      | some content =>
        match trackedLoop hash st staged rest with
        | .error e => .error e
        | .ok tc =>
          .ok (fd.1 :: tc.1, if hash content ≠ fd.2 then fd.1 :: tc.2 else tc.2)

/-- The second loop of VCS.get_tracked_files (gitto.py lines 169-177): for
each staged path not already tracked, read its current content and compare
its digest with the staged digest; on drift record it as changed.  A
missing working-tree file raises `FileNotFoundError`; a staged path absent
from the index raises `KeyError` (both modelled as `.error`). -/
def stagedDriftLoop (hash : String → String) (st : State) (tf : List String) :
    List String → Except String (List String)
  | [] => .ok []
  | p :: rest =>
    if p ∈ tf then stagedDriftLoop hash st tf rest
    else
      match lookup st.fs p with
      | none => .error ("FileNotFoundError: " ++ p)
      | some content =>
        match lookup st.index p with
        | none => .error ("KeyError: " ++ p)
        | some d =>
          match stagedDriftLoop hash st tf rest with
          | .error e => .error e
          | .ok ch => .ok (if hash content ≠ d then p :: ch else ch)

/-- The head-resolution part of VCS.get_tracked_files (gitto.py lines
153-165): with no HEAD, or a HEAD digest with no object file
(`get_commit_data` returns `None` and `if commit_json:` skips silently),
nothing is tracked; otherwise the commit record is parsed and its file-set
scanned by `trackedLoop`. -/
def trackedBase (hash : String → String) (st : State) (staged : List String) :
    Except String (List String × List String) :=
  match st.head with
  | none => .ok ([], [])
  | some h =>
    match lookup st.objects h with
    | none => .ok ([], [])
    | some (.blob _) => .error "json.JSONDecodeError"
    | some (.commit c) => trackedLoop hash st staged c.files

/-- VCS.get_tracked_files (gitto.py lines 149-178): the commit-file loop
followed by the staged-drift loop, both feeding the single
`tracked_files_with_changes` set. -/
def get_tracked_files (hash : String → String) (st : State) (staged : List String) :
    Except String (List String × List String) :=
  match trackedBase hash st staged with
  | .error e => .error e
  | .ok tc =>
    match stagedDriftLoop hash st tc.1 staged with
    | .error e => .error e
    | .ok ch2 => .ok (tc.1, tc.2 ++ ch2)

/-- The walk of VCS.get_untracked_files (gitto.py lines 182-193): skip
paths under the control-metadata directory and the tool's own entry point;
for a file not staged and not tracked, the source opens the BARE file name
(`open(file, "r")`, line 190) instead of the file's path, so the content
digested is that of the working-tree entry named by the basename (resolved
against the working directory), and `FileNotFoundError` is raised when no
such entry exists; the file is recorded untracked when the object directory
has no entry for that digest. -/
def untrackedLoop (hash : String → String) (st : State) (staged tf : List String) :
    List (String × String) → Except String (List String)
  | [] => .ok []
  | fd :: rest =>
    if strContains (dirname fd.1) ".gitto" then untrackedLoop hash st staged tf rest
    else if basename fd.1 = "gitto.py" then untrackedLoop hash st staged tf rest
    else if fd.1 ∈ staged ∨ fd.1 ∈ tf then untrackedLoop hash st staged tf rest
    else
      match lookup st.fs (basename fd.1) with
      | none => .error ("FileNotFoundError: " ++ basename fd.1)
      | some content =>
        match untrackedLoop hash st staged tf rest with
        | .error e => .error e
        | .ok u =>
          .ok (if (lookup st.objects (hash content)).isNone then fd.1 :: u else u)

/-- VCS.get_untracked_files (gitto.py lines 180-194): walk the working
tree. -/
def get_untracked_files (hash : String → String) (st : State) (staged tf : List String) :
    Except String (List String) :=
  untrackedLoop hash st staged tf st.fs

theorem trackedLoop_not_staged (hash : String → String) (st : State)
    (staged : List String) (files : List (String × String))
    (tc : List String × List String)
    (h : trackedLoop hash st staged files = .ok tc) :
    ∀ p, p ∈ tc.1 → p ∉ staged := by
  induction files generalizing tc with
  | nil =>
    simp only [trackedLoop, Except.ok.injEq] at h
    subst h
    simp
  | cons fd rest ih =>
    simp only [trackedLoop] at h
    by_cases hs : fd.1 ∈ staged
    · rw [if_pos hs] at h
      exact ih tc h
    · rw [if_neg hs] at h
      cases hf : lookup st.fs fd.1 with
      | none => rw [hf] at h; cases h
      | some content =>
        rw [hf] at h
        cases hr : trackedLoop hash st staged rest with
        | error e => rw [hr] at h; cases h
        | ok tc' =>
          rw [hr] at h
          simp only [Except.ok.injEq] at h
          subst h
          intro p hp
          simp only [List.mem_cons] at hp
          rcases hp with rfl | hp
          · exact hs
          · exact ih tc' hr p hp

theorem trackedBase_not_staged (hash : String → String) (st : State)
    (staged : List String) (tc : List String × List String)
    (h : trackedBase hash st staged = .ok tc) :
    ∀ p, p ∈ tc.1 → p ∉ staged := by
  unfold trackedBase at h
  split at h
  · simp only [Except.ok.injEq] at h
    subst h
    simp
  · split at h
    · simp only [Except.ok.injEq] at h
      subst h
      simp
    · cases h
    · exact trackedLoop_not_staged hash st staged _ tc h

theorem get_tracked_not_staged (hash : String → String) (st : State)
    (staged t ch : List String)
    (h : get_tracked_files hash st staged = .ok (t, ch)) :
    ∀ p, p ∈ t → p ∉ staged := by
  unfold get_tracked_files at h
  split at h
  · cases h
  · rename_i tc hb
    split at h
    · cases h
    · rename_i ch2 hs
      simp only [Except.ok.injEq, Prod.mk.injEq] at h
      obtain ⟨h1, _⟩ := h
      subst h1
      exact trackedBase_not_staged hash st staged tc hb

theorem untrackedLoop_disjoint (hash : String → String) (st : State)
    (staged tf : List String) (walk : List (String × String)) (u : List String)
    (h : untrackedLoop hash st staged tf walk = .ok u) :
    ∀ p, p ∈ u → p ∉ staged ∧ p ∉ tf := by
  induction walk generalizing u with
  | nil =>
    simp only [untrackedLoop, Except.ok.injEq] at h
    subst h
    simp
  | cons fd rest ih =>
    simp only [untrackedLoop] at h
    by_cases h1 : strContains (dirname fd.1) ".gitto" = true
    · rw [if_pos h1] at h
      exact ih u h
    · rw [if_neg h1] at h
      by_cases h2 : basename fd.1 = "gitto.py"
      · rw [if_pos h2] at h
        exact ih u h
      · rw [if_neg h2] at h
        by_cases h3 : fd.1 ∈ staged ∨ fd.1 ∈ tf
        · rw [if_pos h3] at h
          exact ih u h
        · rw [if_neg h3] at h
          cases hf : lookup st.fs (basename fd.1) with
          | none => rw [hf] at h; cases h
          | some content =>
            rw [hf] at h
            cases hr : untrackedLoop hash st staged tf rest with
            | error e => rw [hr] at h; cases h
            | ok u' =>
              rw [hr] at h
              simp only [Except.ok.injEq] at h
              subst h
              intro p hp
              by_cases hn : (lookup st.objects (hash content)).isNone = true
              · rw [if_pos hn] at hp
                simp only [List.mem_cons] at hp
                rcases hp with rfl | hp
                · push_neg at h3
                  exact ⟨h3.1, h3.2⟩
                · exact ih u' hr p hp
              · rw [if_neg hn] at hp
                exact ih u' hr p hp

/-- C3 counterexample: the claim says no path is simultaneously in the
staged set and in the tracked-with-changes set.  In the repository state
with index `a.txt → "d0"` and on-disk content `"X"` (digest `"X"` under the
identity-like hash), the scanner puts `a.txt` in the staged set AND in the
tracked-with-changes set (the staged-drift loop, gitto.py lines 169-177). -/
theorem staged_and_changed_overlap_cex :
    "a.txt" ∈ get_staged_files ⟨[], [("a.txt", "d0")], none, [("a.txt", "X")]⟩ ∧
    get_tracked_files (fun s => s) ⟨[], [("a.txt", "d0")], none, [("a.txt", "X")]⟩
        (get_staged_files ⟨[], [("a.txt", "d0")], none, [("a.txt", "X")]⟩)
      = .ok ([], ["a.txt"]) := by
  constructor
  · decide
  · rfl

/-- C3 (amended): the classification never puts a path in both the staged
set and the tracked(-unchanged) set, and never puts a path in the untracked
set together with the staged or tracked set; the one overlap the code
allows is a staged path whose on-disk digest drifted from its staged
digest, which is additionally reported tracked-with-changes. -/
theorem classification_disjoint (hash : String → String) (st : State)
    (staged t ch u : List String)
    (hT : get_tracked_files hash st staged = .ok (t, ch))
    (hU : get_untracked_files hash st staged t = .ok u) :
    (∀ p, p ∈ t → p ∉ staged) ∧ (∀ p, p ∈ u → p ∉ staged ∧ p ∉ t) := by
  constructor
  · exact get_tracked_not_staged hash st staged t ch hT
  · exact untrackedLoop_disjoint hash st staged t st.fs u hU

theorem classification_disjoint_witness :
    (∀ p, p ∈ ([] : List String) → p ∉ ["a.txt"]) ∧
    (∀ p, p ∈ ["b.txt"] → p ∉ ["a.txt"] ∧ p ∉ ([] : List String)) :=
  classification_disjoint (fun s => s)
    ⟨[], [("a.txt", "X")], none, [("a.txt", "X"), ("b.txt", "Y")]⟩
    ["a.txt"] [] [] ["b.txt"] rfl rfl

/-- C2: the claim says the scanner digests each candidate file's own
current on-disk content and marks it untracked exactly when the object
store lacks that digest.  The code instead opens the bare basename
(gitto.py line 190), so for `sub/a.txt` it digests the content of the
root-level `a.txt`: here the store holds the digest of `sub/a.txt`'s actual
content `"new"`, yet `sub/a.txt` is still classified untracked; and when no
same-named file exists at the working directory the scan raises
`FileNotFoundError` instead of classifying anything. -/
theorem untracked_digests_wrong_file :
    get_untracked_files (fun s => s)
        ⟨[("new", .blob "new")], [], none, [("a.txt", "old"), ("sub/a.txt", "new")]⟩
        [] []
      = .ok ["a.txt", "sub/a.txt"] ∧
    lookup (⟨[("new", .blob "new")], [], none,
        [("a.txt", "old"), ("sub/a.txt", "new")]⟩ : State).objects
        ((fun s : String => s) "new") = some (.blob "new") ∧
    lookup (⟨[("new", .blob "new")], [], none,
        [("a.txt", "old"), ("sub/a.txt", "new")]⟩ : State).fs "sub/a.txt"
      = some "new" ∧
    get_untracked_files (fun s => s) ⟨[], [], none, [("sub/b.txt", "z")]⟩ [] []
      = .error "FileNotFoundError: b.txt" :=
  ⟨rfl, rfl, rfl, rfl⟩

/-- VCS.add_file (gitto.py lines 66-73): read the working-tree file (a
missing file raises `FileNotFoundError`), write its content to the object
directory under its digest, upsert the index, and print the staging
message. -/
def add_file (hash : String → String) (st : State) (p : String) :
    Except String (State × String) :=
  match lookup st.fs p with
  | none => .error ("FileNotFoundError: " ++ p)
  | some data =>
    .ok ({ st with objects := write_object hash st.objects data,
                   index := append_to_staging_area st.index p (hash data) },
         "\x27" ++ p ++ "\x27 added to staging area")

/-- The result of the validation loop of VCS.add (gitto.py lines 43-52):
either the first path matching no classification (the loop prints
"... did not match any files" and returns), or the accumulated `addAll`
flag. -/
inductive CheckResult : Type
  | bad (p : String)
  | okAll (addAll : Bool)
deriving DecidableEq, Repr

/-- The validation loop of VCS.add (gitto.py lines 43-52): a literal `"."`
sets `addAll`; a path in none of the three classifications aborts the whole
operation before anything is staged. -/
def addCheck (staged tf u : List String) : List String → Bool → CheckResult
  | [], addAll => .okAll addAll
  | p :: rest, addAll =>
    if p = "." then addCheck staged tf u rest true
    else if p ∈ staged ∨ p ∈ tf ∨ p ∈ u then addCheck staged tf u rest addAll
    else .bad p

/-- The staging loop of VCS.add for `addAll` (gitto.py lines 54-58): stage
every listed file in order, threading the mutated state. -/
def addFiles (hash : String → String) : State → List String →
    Except String (State × List String)
  | st, [] => .ok (st, [])
  | st, p :: rest =>
    match add_file hash st p with
    | .error e => .error e
    | .ok sm =>
      match addFiles hash sm.1 rest with
      | .error e => .error e
      | .ok su => .ok (su.1, sm.2 :: su.2)

/-- The per-path staging loop of VCS.add (gitto.py lines 60-64): stage a
path that is tracked-with-changes or untracked, otherwise print
"... already added to staging area". -/
def addPaths (hash : String → String) (ch u : List String) : State → List String →
    Except String (State × List String)
  | st, [] => .ok (st, [])
  | st, p :: rest =>
    if p ∈ ch ∨ p ∈ u then
      match add_file hash st p with
      | .error e => .error e
      | .ok sm =>
        match addPaths hash ch u sm.1 rest with
        | .error e => .error e
        | .ok su => .ok (su.1, sm.2 :: su.2)
    else
      match addPaths hash ch u st rest with
      | .error e => .error e
      | .ok su =>
        .ok (su.1, ("\x27" ++ p ++ "\x27 already added to staging area") :: su.2)

/-- VCS.add (gitto.py lines 38-64): classify the working tree, validate
every listed path, then stage. -/
def add (hash : String → String) (st : State) (paths : List String) :
    Except String (State × List String) :=
  match get_tracked_files hash st (get_staged_files st) with
  | .error e => .error e
  | .ok tc =>
    match get_untracked_files hash st (get_staged_files st) tc.1 with
    | .error e => .error e
    | .ok u =>
      match addCheck (get_staged_files st) tc.1 u paths false with
      | .bad q => .ok (st, ["\x27" ++ q ++ "\x27 did not match any files"])
      | .okAll addAll =>
        if addAll then
          match addFiles hash st tc.2 with
          | .error e => .error e
          | .ok su =>
            match addFiles hash su.1 u with
            | .error e => .error e
            | .ok su2 => .ok (su2.1, su.2 ++ su2.2)
        else addPaths hash tc.2 u st paths

theorem addCheck_bad_of_mem (staged tf u : List String) (paths : List String)
    (p : String) (hp : p ∈ paths) (hne : p ≠ ".") (h1 : p ∉ staged)
    (h2 : p ∉ tf) (h3 : p ∉ u) :
    ∀ b, ∃ q, addCheck staged tf u paths b = .bad q := by
  induction paths with
  | nil => cases hp
  | cons r rest ih =>
    intro b
    by_cases hr : r = "."
    · subst hr
      have hprest : p ∈ rest := by
        rcases List.mem_cons.mp hp with rfl | hmem
        · exact absurd rfl hne
        · exact hmem
      simpa [addCheck] using ih hprest true
    · by_cases hrc : r ∈ staged ∨ r ∈ tf ∨ r ∈ u
      · have hprest : p ∈ rest := by
          rcases List.mem_cons.mp hp with rfl | hmem
          · rcases hrc with hc | hc | hc
            · exact absurd hc h1
            · exact absurd hc h2
            · exact absurd hc h3
          · exact hmem
        simpa [addCheck, hr, hrc] using ih hprest b
      · exact ⟨r, by simp [addCheck, hr, hrc]⟩

/-- C9: when some listed path (other than the literal `"."`) matches no
classification, the whole `add` aborts during validation: the returned
state is exactly the input state — nothing was staged, the index and object
store are unchanged — and the only output is the one mismatch message. -/
theorem add_aborts_without_staging (hash : String → String) (st : State)
    (paths : List String) (p : String) (t ch u : List String)
    (hT : get_tracked_files hash st (get_staged_files st) = .ok (t, ch))
    (hU : get_untracked_files hash st (get_staged_files st) t = .ok u)
    (hp : p ∈ paths) (hne : p ≠ ".")
    (h1 : p ∉ get_staged_files st) (h2 : p ∉ t) (h3 : p ∉ u) :
    ∃ m, add hash st paths = .ok (st, [m]) := by
  obtain ⟨q, hq⟩ :=
    addCheck_bad_of_mem (get_staged_files st) t u paths p hp hne h1 h2 h3 false
  refine ⟨"\x27" ++ q ++ "\x27 did not match any files", ?_⟩
  simp only [add, hT, hU, hq]

theorem add_aborts_witness :
    ∃ m, add (fun s => s) ⟨[], [], none, []⟩ ["ghost.txt"]
        = .ok (⟨[], [], none, []⟩, [m]) :=
  add_aborts_without_staging (fun s => s) ⟨[], [], none, []⟩ ["ghost.txt"]
    "ghost.txt" [] [] [] rfl rfl (List.mem_singleton.mpr rfl)
    (by decide) (by decide) (by decide) (by decide)

/-- The loop of VCS.restore_file (gitto.py lines 116-124): scan the commit
file-set; for the matching path, write the committed blob content back to
the working tree and print the restored message; when no entry matches the
function falls through and returns with no write and no message. -/
def restoreLoop (st : State) (path : String) :
    List (String × String) → Except String (State × List String)
  | [] => .ok (st, [])
  | fd :: rest =>
    if path = fd.1 then
      match get_file_content st.objects fd.2 with
      | none => .error ("FileNotFoundError: " ++ fd.2)
      | some content =>
        .ok ({ st with fs := setk st.fs fd.1 content },
             ["\x27" ++ path ++ "\x27 restored to last commit version"])
    else restoreLoop st path rest

/-- VCS.restore_file (gitto.py lines 111-124): read HEAD (with no HEAD the
source calls `os.path.join(self.objects_path, None)`, a `TypeError`), fetch
the commit record (a missing object file makes `get_commit_data` return
`None` and `if commit_json:` skips everything silently), then scan its
file-set. -/
def restore_file (st : State) (path : String) : Except String (State × List String) :=
  match st.head with
  | none => .error "TypeError: join argument must be str, not NoneType"
  | some h =>
    match lookup st.objects h with
    | none => .ok (st, [])
    | some (.blob _) => .error "json.JSONDecodeError"
    | some (.commit c) => restoreLoop st path c.files

/-- The per-path loop of VCS.restore (gitto.py lines 103-109). -/
def restorePaths (t ch : List String) : State → List String → List String →
    Except String (State × List String)
  | st, [], msgs => .ok (st, msgs)
  | st, p :: rest, msgs =>
    if p ∈ ch then
      match restore_file st p with
      | .error e => .error e
      | .ok sm => restorePaths t ch sm.1 rest (msgs ++ sm.2)
    else if p ∈ t then
      restorePaths t ch st rest
        (msgs ++ ["\x27" ++ p ++ "\x27 has no changes to be restored"])
    else
      restorePaths t ch st rest
        (msgs ++ ["\x27" ++ p ++ "\x27 is not being tracked"])

/-- VCS.restore (gitto.py lines 96-109): with no HEAD it prints "No commit
found" but continues (there is no early return), classifies the working
tree, and processes each path. -/
def restore (hash : String → String) (st : State) (paths : List String) :
    Except String (State × List String) :=
  let msgs0 : List String :=
    match st.head with
    | none => ["No commit found"]
    | some _ => []
  match get_tracked_files hash st (get_staged_files st) with
  | .error e => .error e
  | .ok tc => restorePaths tc.1 tc.2 st paths msgs0

theorem restoreLoop_absent (st : State) (path : String)
    (files : List (String × String)) (h : lookup files path = none) :
    restoreLoop st path files = .ok (st, []) := by
  induction files with
  | nil => rfl
  | cons fd rest ih =>
    simp only [lookup] at h
    by_cases he : fd.1 = path
    · rw [if_pos he] at h
      cases h
    · rw [if_neg he] at h
      simp only [restoreLoop]
      rw [if_neg (fun hpe => he hpe.symm)]
      exact ih h

/-- C10: a path classified tracked-with-changes only because its content
drifted after staging — it is in the index but absent from the latest
commit's file-set — makes `restore` a silent no-op: the state (and in
particular the working tree) is returned unchanged and no message is
printed for the path. -/
theorem restore_silent_noop_for_drifted_staged (hash : String → String)
    (st : State) (h : String) (c : Commit) (t ch : List String) (p : String)
    (hh : st.head = some h)
    (hc : lookup st.objects h = some (.commit c))
    (hT : get_tracked_files hash st (get_staged_files st) = .ok (t, ch))
    (hp : p ∈ ch)
    (hnc : lookup c.files p = none) :
    restore hash st [p] = .ok (st, []) := by
  have hrf : restore_file st p = .ok (st, []) := by
    simp only [restore_file, hh, hc]
    exact restoreLoop_absent st p c.files hnc
  simp only [restore, hh, hT]
  simp only [restorePaths, if_pos hp, hrf, List.nil_append, List.append_nil]

theorem restore_silent_witness :
    restore (fun s => s)
        ⟨[("hc", .commit ⟨"t0", "m0", [], none⟩)], [("a.txt", "X")],
          some "hc", [("a.txt", "Y")]⟩ ["a.txt"]
      = .ok (⟨[("hc", .commit ⟨"t0", "m0", [], none⟩)], [("a.txt", "X")],
          some "hc", [("a.txt", "Y")]⟩, []) :=
  restore_silent_noop_for_drifted_staged (fun s => s)
    ⟨[("hc", .commit ⟨"t0", "m0", [], none⟩)], [("a.txt", "X")],
      some "hc", [("a.txt", "Y")]⟩
    "hc" ⟨"t0", "m0", [], none⟩ [] ["a.txt"] "a.txt" rfl rfl rfl
    (List.mem_singleton.mpr rfl) rfl

/-- One entry of the `log` output (gitto.py lines 276-278).  The source
re-formats the ISO timestamp through `strftime`; the rendering here keeps
the stored timestamp text, which only re-words the date line. -/
def renderEntry (h : String) (c : Commit) : String :=
  "Commit:\t" ++ h ++ "\nDate:\t" ++ c.timestamp ++ "\n\n\t" ++ c.message ++ "\n"

/-- The `while head:` loop of VCS.log (gitto.py lines 269-279): print each
commit and follow the parent pointer; a digest with no object file raises
`ValueError("Commit data for hash ... not found.")`.  The loop has no
structural decrease (a digest cycle would run forever), so the model
recurses on explicit fuel; every well-formed parent chain is handled within
fuel equal to its length. -/
def logGo (st : State) : Nat → Option String → Except String (List String)
  | _, none => .ok []
  | 0, some _ => .error "fuel exhausted"
  | fuel + 1, some h =>
    match lookup st.objects h with
    | none => .error ("Commit data for hash " ++ h ++ " not found.")
    | some (.blob _) => .error "json.JSONDecodeError"
    | some (.commit c) =>
      match logGo st fuel c.parent with
      | .error e => .error e
      | .ok rest => .ok (renderEntry h c :: rest)

/-- VCS.log (gitto.py lines 266-281). -/
def log (st : State) (fuel : Nat) : Except String (List String) :=
  match st.head with
  | none => .ok ["Gitto repository does not have any commits yet"]
  | some h => logGo st fuel (some h)

/-- The `log` command boundary: `main` (gitto.py lines 417-418) calls
`vcs.log()` with no surrounding `try`/`except`, so whatever `log` raises
propagates unchanged out of the program. -/
def runLogCommand (st : State) (fuel : Nat) : Except String (List String) :=
  log st fuel

/-- A well-formed parent chain in the object store: from the given digest,
every referenced record is present and the parent pointers reach `none`. -/
inductive Chain (st : State) : Option String → List (String × Commit) → Prop
  | nil : Chain st none []
  | cons (h : String) (c : Commit) (l : List (String × Commit))
      (hl : lookup st.objects h = some (.commit c))
      (hc : Chain st c.parent l) : Chain st (some h) ((h, c) :: l)

theorem logGo_chain (st : State) (mh : Option String)
    (entries : List (String × Commit)) (hchain : Chain st mh entries) :
    logGo st entries.length mh
      = .ok (entries.map (fun e => renderEntry e.1 e.2)) := by
  induction hchain with
  | nil => rfl
  | cons hd c l hl hc ih =>
    simp only [List.length_cons, List.map_cons, logGo, hl, ih]

/-- C4 counterexample: the claim says a missing parent digest is recovered
at the command boundary and rendered as a one-line message.  In the state
whose single commit references the absent parent digest `"missing"`, the
log command ends in the uncaught `ValueError` — there is no handler in
`main` — rather than in a rendered message. -/
theorem log_error_propagates_cex :
    runLogCommand
        ⟨[("h0", .commit ⟨"t", "m", [], some "missing"⟩)], [], some "h0", []⟩ 2
      = .error "Commit data for hash missing not found." := rfl

/-- C4 (amended): `log` follows parent pointers from HEAD and terminates at
`parent = None` — on a well-formed chain it succeeds and prints exactly one
entry per commit of the chain — and when a referenced digest is missing
from the object store it raises `ValueError`, which is NOT recovered at the
command boundary: `runLogCommand` (the `main` dispatch, which installs no
handler) propagates the error. -/
theorem log_traverses_and_fault_propagates (st : State)
    (entries : List (String × Commit)) (h : String) (fuel : Nat) :
    (Chain st st.head entries →
        logGo st entries.length st.head
          = .ok (entries.map (fun e => renderEntry e.1 e.2))) ∧
    (st.head = some h → lookup st.objects h = none →
        runLogCommand st (fuel + 1)
          = .error ("Commit data for hash " ++ h ++ " not found.")) := by
  constructor
  · intro hchain
    exact logGo_chain st st.head entries hchain
  · intro hh hl
    simp only [runLogCommand, log, hh, logGo, hl]

theorem log_traverses_witness :
    logGo
        ⟨[("h1", .commit ⟨"t1", "m1", [], none⟩),
          ("h2", .commit ⟨"t2", "m2", [], some "h1"⟩)], [], some "h2", []⟩ 2
        (some "h2")
      = .ok [renderEntry "h2" ⟨"t2", "m2", [], some "h1"⟩,
             renderEntry "h1" ⟨"t1", "m1", [], none⟩] ∧
    runLogCommand ⟨[], [], some "hX", []⟩ 1
      = .error ("Commit data for hash " ++ "hX" ++ " not found.") :=
  ⟨(log_traverses_and_fault_propagates
      ⟨[("h1", .commit ⟨"t1", "m1", [], none⟩),
        ("h2", .commit ⟨"t2", "m2", [], some "h1"⟩)], [], some "h2", []⟩
      [("h2", ⟨"t2", "m2", [], some "h1"⟩), ("h1", ⟨"t1", "m1", [], none⟩)]
      "h2" 0).1
      (Chain.cons "h2" ⟨"t2", "m2", [], some "h1"⟩ _ rfl
        (Chain.cons "h1" ⟨"t1", "m1", [], none⟩ [] rfl Chain.nil)),
   (log_traverses_and_fault_propagates ⟨[], [], some "hX", []⟩ [] "hX" 0).2
      rfl rfl⟩

/-- One printed line of VCS.show_commit_diff (gitto.py lines 288-343),
stripped of terminal colour codes. -/
inductive Event : Type
  | commitNotFound
  | firstCommit
  | header
  | fileHeader (path : String)
  | diffLine (line : String)
  | parentNotFound
  | newFile
  | blank
deriving DecidableEq, Repr

/-- Python `str.splitlines()` restricted to `\n` separators. -/
def splitLines (s : String) : List String :=
  (splitOnSlash (s.data.map (fun c => if c = '\n' then '/' else c))).map String.mk

/-- The body of the per-file loop of VCS.show_commit_diff (gitto.py lines
302-343): print the file header, fetch the blob (`open` raises on a missing
object), re-fetch and re-parse the parent commit (when its object file is
missing, print "Parent commit not found" and return from the whole
command — the Bool result is false); if the path is in the parent's
file-set run the line diff on the two blobs, otherwise print "New file in
this commit"; finish the iteration with a blank line. -/
def diffOneFile (udiff : List String → List String → List String) (st : State)
    (parentH p d : String) : Except String (List Event × Bool) :=
  match get_file_content st.objects d with
  | none => .error ("FileNotFoundError: " ++ d)
  | some content =>
    match lookup st.objects parentH with
    | none => .ok ([.fileHeader p, .parentNotFound], false)
    | some (.blob _) => .error "json.JSONDecodeError"
    | some (.commit pc) =>
      match lookup pc.files p with
      | some pd =>
        match get_file_content st.objects pd with
        | none => .error ("FileNotFoundError: " ++ pd)
        | some pcontent =>
          .ok (.fileHeader p ::
                ((udiff (splitLines pcontent) (splitLines content)).map Event.diffLine
                  ++ [.blank]), true)
      | none => .ok ([.fileHeader p, .newFile, .blank], true)

/-- The per-file loop of VCS.show_commit_diff over the commit's file-set,
stopping early when an iteration returned from the command. -/
def diffFilesGo (udiff : List String → List String → List String) (st : State)
    (parentH : String) : List (String × String) → Except String (List Event)
  | [] => .ok []
  | fd :: rest =>
    match diffOneFile udiff st parentH fd.1 fd.2 with
    | .error e => .error e
    | .ok eb =>
      if eb.2 then
        match diffFilesGo udiff st parentH rest with
        | .error e => .error e
        | .ok more => .ok (eb.1 ++ more)
      else .ok eb.1

/-- VCS.show_commit_diff (gitto.py lines 288-343): a missing commit prints
"Commit not found"; a commit whose `parent` is null prints "First commit"
and performs no diff; otherwise print the header and run the per-file
loop. -/
def show_commit_diff (udiff : List String → List String → List String)
    (st : State) (commit_hash : String) : Except String (List Event) :=
  match lookup st.objects commit_hash with
  | none => .ok [.commitNotFound]
  | some (.blob _) => .error "json.JSONDecodeError"
  | some (.commit c) =>
    match c.parent with
    | none => .ok [.firstCommit]
    | some ph =>
      match diffFilesGo udiff st ph c.files with
      | .error e => .error e
      | .ok es => .ok (.header :: es)

/-- C8: for a commit with no parent, `show_commit_diff` reports exactly
"First commit" and attempts no diff; and a file present in the commit's
file-set but absent from the parent's file-set is reported as a new file
with no diff lines emitted for it. -/
theorem show_diff_first_commit_and_new_file
    (udiff : List String → List String → List String)
    (st : State) (h : String) (c : Commit)
    (st2 : State) (ph p d content : String) (pc : Commit) :
    (lookup st.objects h = some (.commit c) → c.parent = none →
        show_commit_diff udiff st h = .ok [.firstCommit]) ∧
    (get_file_content st2.objects d = some content →
        lookup st2.objects ph = some (.commit pc) →
        lookup pc.files p = none →
        diffOneFile udiff st2 ph p d = .ok ([.fileHeader p, .newFile, .blank], true)) := by
  constructor
  · intro h1 h2
    simp only [show_commit_diff, h1, h2]
  · intro h1 h2 h3
    simp only [diffOneFile, h1, h2, h3]

theorem show_diff_witness :
    show_commit_diff (fun _ _ => [])
        ⟨[("h", .commit ⟨"t", "m", [("a.txt", "b1")], none⟩)], [], some "h", []⟩ "h"
      = .ok [.firstCommit] ∧
    diffOneFile (fun _ _ => [])
        ⟨[("b1", .blob "x"), ("ph", .commit ⟨"t0", "m0", [], none⟩)], [],
          some "ph", []⟩ "ph" "f.txt" "b1"
      = .ok ([.fileHeader "f.txt", .newFile, .blank], true) :=
  ⟨(show_diff_first_commit_and_new_file (fun _ _ => [])
      ⟨[("h", .commit ⟨"t", "m", [("a.txt", "b1")], none⟩)], [], some "h", []⟩
      "h" ⟨"t", "m", [("a.txt", "b1")], none⟩
      ⟨[], [], none, []⟩ "ph" "f.txt" "b1" "x" ⟨"t0", "m0", [], none⟩).1 rfl rfl,
   (show_diff_first_commit_and_new_file (fun _ _ => [])
      ⟨[], [], none, []⟩ "h" ⟨"t", "m", [], none⟩
      ⟨[("b1", .blob "x"), ("ph", .commit ⟨"t0", "m0", [], none⟩)], [],
        some "ph", []⟩ "ph" "f.txt" "b1" "x" ⟨"t0", "m0", [], none⟩).2
      rfl rfl rfl⟩

end Gitto
